import Mathlib

/-!
Verification of the heartbeat-android rPPG pipeline (`RPPGSimple`).

The repository ships only the header `src/app/src/main/jni/RPPGSimple.hpp`,
which declares the pipeline (`load`, `processFrame`, `setNearestBox`,
`estimateHeartrate`, the two filter methods, and the state fields) but whose
implementation file is not present under `src/`.  Except where a body is
visible in the header (the default constructor `RPPGSimple() {;}`), the
operations below are modelled from the specification, as shallow executable
definitions over exact rational arithmetic.
-/

namespace Heartbeat

/-- Axis-aligned rectangle with integer coordinates, embedding `cv::Rect`
(fields x, y, width, height). -/
structure Rect where
  x : ℤ
  y : ℤ
  w : ℤ
  h : ℤ
deriving DecidableEq

/-- Center of a rectangle, as a pair of rationals. -/
def Rect.center (r : Rect) : ℚ × ℚ :=
  ((r.x : ℚ) + (r.w : ℚ) / 2, (r.y : ℚ) + (r.h : ℚ) / 2)

/-- Area of a rectangle. -/
def Rect.area (r : Rect) : ℤ := r.w * r.h

/-- Squared Euclidean distance between two points. -/
def distSq (p q : ℚ × ℚ) : ℚ := (p.1 - q.1) ^ 2 + (p.2 - q.2) ^ 2

/-- Left-to-right scan keeping the current best element under the score `f`;
a later element replaces the current best only when its score is strictly
larger, so the first of several tied maxima is kept. -/
def bestBy {α β : Type} [LinearOrder β] (f : α → β) (b : α) (l : List α) : α :=
  l.foldl (fun best c => if f best < f c then c else best) b

/-- Modelled from the spec: the body of `setNearestBox` (declared at
RPPGSimple.hpp line 43, implementation not under src/).  Given the candidate
rectangles of one detector call, it selects the candidate whose center
minimizes the Euclidean distance to the center of the previous box when the
previous region is valid, and the candidate of largest area otherwise; with no
candidates there is no selection.  Minimizing the Euclidean distance is
realized as maximizing the negated squared distance, which is equivalent
because the square root is monotone. -/
def setNearestBox (valid : Bool) (prevBox : Rect) (boxes : List Rect) : Option Rect :=
  match boxes with
  | [] => none
  | b :: bs =>
    if valid then some (bestBy (fun c => -distSq c.center prevBox.center) b bs)
    else some (bestBy (fun c => c.area) b bs)

/-- A spectrum bin `(frequency in Hz, power)` lies in the configured band when
its bpm value `60 * frequency` is between `minBpm` and `maxBpm`. -/
def inBand (minBpm maxBpm : ℚ) (bin : ℚ × ℚ) : Bool :=
  decide (minBpm ≤ 60 * bin.1) && decide (60 * bin.1 ≤ maxBpm)

/-- Modelled from the spec: the peak-selection core of `estimateHeartrate`
(declared at RPPGSimple.hpp line 48, implementation not under src/).  The
power spectrum is restricted to the configured band first, so bins outside
the band are excluded from the search entirely; among the remaining bins,
scanned in their given order, the one of maximum power wins, a later bin
replacing the current peak only on strictly larger power.  The result is the
bpm value of the winning bin; with no in-band bin there is no estimate. -/
def estimateHeartrate (minBpm maxBpm : ℚ) (spectrum : List (ℚ × ℚ)) : Option ℚ :=
  match spectrum.filter (inBand minBpm maxBpm) with
  | [] => none
  | b :: bs => some (60 * (bestBy (fun bin => bin.2) b bs).1)

/-- Arithmetic mean of a list of rationals (0 for the empty list). -/
def listMean (xs : List ℚ) : ℚ := xs.sum / xs.length

/-- Centered moving average of half-width `w`, clamped at the ends; one output
value per input value. -/
def movingAvg (w : ℕ) (xs : List ℚ) : List ℚ :=
  (List.range xs.length).map fun i => listMean ((xs.drop (i - w)).take (2 * w + 1))

/-- Modelled from the spec: the detrending step shared by both filter
pipelines (RPPGSimple.hpp lines 46 and 47, implementation not under src/),
realized as subtraction of a moving-average trend. -/
def detrend (w : ℕ) (xs : List ℚ) : List ℚ :=
  List.zipWith (fun a b => a - b) xs (movingAvg w xs)

/-- Subtract the segment mean from every sample. -/
def meanCenter (xs : List ℚ) : List ℚ := xs.map fun x => x - listMean xs

/-- Modelled from the spec: the filter pipeline `extractSignal_den_detr_mean`
(RPPGSimple.hpp line 46, implementation not under src/): detrend, then
mean-center. -/
def extractSignal_den_detr_mean (w : ℕ) (xs : List ℚ) : List ℚ :=
  meanCenter (detrend w xs)

/-- Index arithmetic for circular convolution: `(n - j) mod N` computed in ℕ. -/
def circIndex (n j N : ℕ) : ℕ := (n + (N - j % N)) % N

/-- Circular convolution of a signal with a FIR kernel. -/
def circConv (kernel : List ℚ) (xs : List ℚ) : List ℚ :=
  (List.range xs.length).map fun n =>
    ((List.range kernel.length).map fun j =>
      kernel.getD j 0 * xs.getD (circIndex n j xs.length) 0).sum

/-- Modelled from the spec: the filter pipeline `extractSignal_den_band`
(RPPGSimple.hpp line 47, implementation not under src/): detrend, then apply
a band-pass filter, realized as circular FIR convolution.  A band-pass whose
passband is the cardiac band (about 0.7 to 4 Hz) has zero gain at 0 Hz, which
for a FIR kernel means the kernel coefficients sum to zero; that hypothesis
appears in the theorems about this pipeline. -/
def extractSignal_den_band (w : ℕ) (kernel : List ℚ) (xs : List ℚ) : List ℚ :=
  circConv kernel (detrend w xs)

/-- Modelled from the spec: the aggregator report over the rolling window of
raw bpm estimates (the fields meanBpm, minBpm, maxBpm at RPPGSimple.hpp lines
94 to 96, implementation not under src/).  The estimate is valid only once
the window holds at least `minCount` raw estimates; when it is valid the
report carries the mean, the minimum and the maximum of the window. -/
def aggregatorReport (minCount : ℕ) (window : List ℚ) : Option (ℚ × ℚ × ℚ) :=
  match window with
  | [] => none
  | w :: ws =>
    if minCount ≤ ws.length + 1 then
      some (listMean (w :: ws), bestBy (fun v => -v) w ws, bestBy id w ws)
    else none

/-- Modelled from the spec: linear interpolation of a time-ordered sample
list `(time, value)` at a query time, between the two nearest raw samples;
queries before the first sample clamp to the first value, queries after the
last sample clamp to the last value. -/
def interpAt : List (ℚ × ℚ) → ℚ → ℚ
  | [], _ => 0
  | [(_, v)], _ => v
  | (t1, v1) :: (t2, v2) :: rest, q =>
    if q ≤ t1 then v1
    else if q ≤ t2 then v1 + (v2 - v1) * (q - t1) / (t2 - t1)
    else interpAt ((t2, v2) :: rest) q

/-- Modelled from the spec: resampling of the signal buffer (the parallel
buffers g and t at RPPGSimple.hpp lines 88 and 89, implementation not under
src/) onto a grid of query times by linear interpolation. -/
def resample (samples : List (ℚ × ℚ)) (grid : List ℚ) : List ℚ :=
  grid.map (interpAt samples)

/-- The uniform sampling grid at rate `fs` starting at `t0`. -/
def uniformGrid (t0 : ℚ) (fs : ℚ) (n : ℕ) : List ℚ :=
  (List.range n).map fun j : ℕ => t0 + (j : ℚ) / fs

/-- The configuration fields of `RPPGSimple` set by `load` (RPPGSimple.hpp
lines 64 to 70 together with the three classifiers at lines 60 to 62);
classifiers are carried as their resource names. -/
structure Settings where
  minFaceSize : ℤ × ℤ
  rescanInterval : ℚ
  samplingFrequency : ℚ
  timeBase : ℚ
  logMode : Bool
  drawMode : Bool
  faceClassifier : String
  leftEyeClassifier : String
  rightEyeClassifier : String
deriving DecidableEq

/-- The mutable tracking and signal state of `RPPGSimple` (RPPGSimple.hpp
lines 72 to 96): validity flag, consecutive-miss counter, tracked box, the
signal buffer as newest-first `(time, value)` pairs, the discontinuity
markers (the jumps buffer), and the rolling window of raw bpm estimates. -/
structure RPPGState where
  settings : Settings
  valid : Bool
  missCount : ℕ
  box : Rect
  lastSamplingTime : ℚ
  signal : List (ℚ × ℚ)
  jumps : List ℚ
  bpmWindow : List ℚ
deriving DecidableEq

/-- One frame as the pipeline observes it: timestamp, the face candidates the
external detector returned for this frame, and the scalar the signal
extractor produced over the current mask (`none` when the mask is empty or
undefined). -/
structure FrameObs where
  time : ℚ
  faceCandidates : List Rect
  sample : Option ℚ
deriving DecidableEq

/-- Modelled from the spec: the number of consecutive empty detections after
which a valid track is lost (the end-to-end scenario of spec section 8 uses
five frames). -/
def lostThreshold : ℕ := 5

/-- Modelled from the spec: minimum buffered duration (in the time unit of
the frame timestamps) required before the estimation step runs. -/
def minSegmentDuration : ℚ := 5

/-- Modelled from the spec: minimum number of raw estimates the rolling
window must hold before the aggregated estimate is valid. -/
def minEstimates : ℕ := 3

/-- Lower edge of the plausible heart-rate band in bpm (spec: about 42). -/
def lowBpm : ℚ := 42

/-- Upper edge of the plausible heart-rate band in bpm (spec: about 240). -/
def highBpm : ℚ := 240

/-- Modelled from the spec: the tracker update of one frame (`detectFace` and
`setNearestBox`, RPPGSimple.hpp lines 42 and 43, implementation not under
src/).  A nonempty candidate set selects a box and makes the track valid with
the miss counter reset; an empty candidate set increments the miss counter,
and when the counter reaches `lostThreshold` on a valid track the track
becomes invalid and a discontinuity marker carrying the frame time is pushed
onto the jumps buffer. -/
def trackerUpdate (s : RPPGState) (time : ℚ) (cands : List Rect) : RPPGState :=
  match setNearestBox s.valid s.box cands with
  | some sel => { s with valid := true, missCount := 0, box := sel }
  | none =>
    if s.valid = true ∧ lostThreshold ≤ s.missCount + 1 then
      { s with valid := false, missCount := s.missCount + 1, jumps := time :: s.jumps }
    else { s with missCount := s.missCount + 1 }

/-- Time span covered by the newest-first signal buffer. -/
def bufferDuration (sig : List (ℚ × ℚ)) : ℚ :=
  match sig with
  | [] => 0
  | p :: rest => p.1 - (rest.getLastD p).1

/-- The values of the most recent contiguous segment of the signal buffer:
samples newer than the latest discontinuity marker, oldest first. -/
def currentSegment (s : RPPGState) : List ℚ :=
  ((s.signal.filter fun p =>
    match s.jumps with
    | [] => true
    | j :: _ => decide (j < p.1)).map Prod.snd).reverse

/-- Modelled from the spec: the estimation step of one frame
(`estimateHeartrate`, RPPGSimple.hpp line 48, implementation not under src/).
It runs only on a valid track, with at least `minSegmentDuration` of buffered
signal, at the sampling cadence; it filters the current segment, obtains its
power spectrum through the supplied spectral transform `spectrumOf` (the
discrete Fourier transform is kept as a parameter), selects the in-band peak,
pushes the raw bpm onto the rolling window and emits the aggregator report
when that is valid.  In every other case nothing is emitted. -/
def estimationStep (spectrumOf : List ℚ → List (ℚ × ℚ)) (s : RPPGState) (time : ℚ) :
    RPPGState × Option (ℚ × ℚ × ℚ × ℚ) :=
  if s.valid = true ∧ minSegmentDuration ≤ bufferDuration s.signal ∧
      1 ≤ (time - s.lastSamplingTime) * s.settings.samplingFrequency then
    match estimateHeartrate lowBpm highBpm
        (spectrumOf (extractSignal_den_detr_mean 2 (currentSegment s))) with
    | some bpm =>
      match aggregatorReport minEstimates (bpm :: s.bpmWindow) with
      | some (m, lo, hi) =>
        ({ s with lastSamplingTime := time, bpmWindow := bpm :: s.bpmWindow },
          some (time, m, lo, hi))
      | none =>
        ({ s with lastSamplingTime := time, bpmWindow := bpm :: s.bpmWindow }, none)
    | none => ({ s with lastSamplingTime := time }, none)
  else (s, none)

/-- Modelled from the spec: the sample-append step of one frame.  A sample is
appended only when this frame produced a detection (the spec scenario of five
consecutive empty detections appends no sample during that span), the track
is valid, and the extractor produced a scalar; a mask gap (`none`) appends
nothing. -/
def appendSample (s : RPPGState) (f : FrameObs) : RPPGState :=
  if f.faceCandidates ≠ [] ∧ s.valid = true then
    match f.sample with
    | some v => { s with signal := (f.time, v) :: s.signal }
    | none => s
  else s

/-- Modelled from the spec: `processFrame` (RPPGSimple.hpp line 36,
implementation not under src/), the sole per-frame entry point.  It updates
the tracker from the detector candidates, appends a signal sample only when
this frame produced a detection and the extractor produced a scalar, and runs
the estimation step; the result is the new state together with at most one
emitted estimate `(time, meanBpm, minBpm, maxBpm)`.  The function is total:
detection misses, mask gaps and insufficient buffered data take the branches
that leave the buffers unchanged or skip the emission. -/
def processFrame (spectrumOf : List ℚ → List (ℚ × ℚ)) (s : RPPGState) (f : FrameObs) :
    RPPGState × Option (ℚ × ℚ × ℚ × ℚ) :=
  estimationStep spectrumOf (appendSample (trackerUpdate s f.time f.faceCandidates) f) f.time

/-- A concrete settings record for concrete evaluations. -/
def settings0 : Settings := ⟨(40, 40), 1, 1, 1, false, false, "face", "leftEye", "rightEye"⟩

/-- A concrete pipeline state with an invalid track and empty buffers. -/
def state0 : RPPGState := ⟨settings0, false, 0, ⟨0, 0, 1, 1⟩, 0, [], [], []⟩

/-- A concrete pipeline state with a valid track and empty buffers. -/
def stateValid : RPPGState := { state0 with valid := true }

/-- The trivial spectral transform, for concrete evaluations. -/
def spectrumNone : List ℚ → List (ℚ × ℚ) := fun _ => []

/-- Availability of the external classifier resources at construction time. -/
structure ResourceEnv where
  faceClassifierAvailable : Bool
  leftEyeClassifierAvailable : Bool
  rightEyeClassifierAvailable : Bool
deriving DecidableEq

/-- A just-constructed pipeline object; `loaded` records whether the
classifier resources have been loaded into it. -/
structure ConstructedPipeline where
  loaded : Bool
deriving DecidableEq

/-- Embedded from the source header, RPPGSimple.hpp line 24: the default
constructor is `RPPGSimple() {;}` with an empty body.  It consults no
resources and has no failure path; the `Option` result is the failure channel
a construction-time failure would use, and the constructor never uses it.
Classifier loading happens only in the later `load` call (lines 26 to 34). -/
def constructRPPGSimple (_env : ResourceEnv) : Option ConstructedPipeline :=
  some { loaded := false }

theorem bestBy_cons {α β : Type} [LinearOrder β] (f : α → β) (b c : α) (l : List α) :
    bestBy f b (c :: l) = bestBy f (if f b < f c then c else b) l := rfl

theorem bestBy_mem {α β : Type} [LinearOrder β] (f : α → β) (l : List α) (b : α) :
    bestBy f b l ∈ b :: l := by
  induction l generalizing b with
  | nil => simp [bestBy]
  | cons c l ih =>
    rw [bestBy_cons]
    by_cases hbc : f b < f c
    · rw [if_pos hbc]
      rcases List.mem_cons.mp (ih c) with h | h
      · rw [h]
        exact List.mem_cons.mpr (Or.inr (List.mem_cons_self c l))
      · exact List.mem_cons.mpr (Or.inr (List.mem_cons.mpr (Or.inr h)))
    · rw [if_neg hbc]
      rcases List.mem_cons.mp (ih b) with h | h
      · rw [h]
        exact List.mem_cons_self b (c :: l)
      · exact List.mem_cons.mpr (Or.inr (List.mem_cons.mpr (Or.inr h)))

theorem le_bestBy {α β : Type} [LinearOrder β] (f : α → β) (l : List α) (b : α) :
    ∀ a ∈ b :: l, f a ≤ f (bestBy f b l) := by
  induction l generalizing b with
  | nil =>
    intro a ha
    rw [List.mem_singleton] at ha
    subst ha
    simp [bestBy]
  | cons c l ih =>
    intro a ha
    rw [bestBy_cons]
    by_cases hbc : f b < f c
    · rw [if_pos hbc]
      have hc : f c ≤ f (bestBy f c l) := ih c c (List.mem_cons_self c l)
      rcases List.mem_cons.mp ha with h | h
      · rw [h]
        exact (le_of_lt hbc).trans hc
      · rcases List.mem_cons.mp h with h2 | h2
        · rw [h2]
          exact hc
        · exact ih c a (List.mem_cons.mpr (Or.inr h2))
    · rw [if_neg hbc]
      have hb : f b ≤ f (bestBy f b l) := ih b b (List.mem_cons_self b l)
      rcases List.mem_cons.mp ha with h | h
      · rw [h]
        exact hb
      · rcases List.mem_cons.mp h with h2 | h2
        · rw [h2]
          exact (le_of_not_lt hbc).trans hb
        · exact ih b a (List.mem_cons.mpr (Or.inr h2))

theorem bestBy_first {α β : Type} [LinearOrder β] (f : α → β) (l : List α) (b : α) :
    bestBy f b l = b ∨ (bestBy f b l ∈ l ∧ f b < f (bestBy f b l)) := by
  induction l generalizing b with
  | nil => exact Or.inl rfl
  | cons c l ih =>
    rw [bestBy_cons]
    by_cases hbc : f b < f c
    · rw [if_pos hbc]
      rcases ih c with h | ⟨hmem, hlt⟩
      · rw [h]
        exact Or.inr ⟨List.mem_cons_self c l, hbc⟩
      · exact Or.inr ⟨List.mem_cons.mpr (Or.inr hmem), hbc.trans hlt⟩
    · rw [if_neg hbc]
      rcases ih b with h | ⟨hmem, hlt⟩
      · exact Or.inl h
      · exact Or.inr ⟨List.mem_cons.mpr (Or.inr hmem), hlt⟩

theorem bestBy_tiebreak {α β γ : Type} [LinearOrder β] [LinearOrder γ] (f : α → β)
    (g : α → γ) : ∀ (l : List α) (b : α), ((b :: l).Pairwise fun p q => g p < g q) →
    ∀ a ∈ b :: l, f a = f (bestBy f b l) → g (bestBy f b l) ≤ g a := by
  intro l
  induction l with
  | nil =>
    intro b _ a ha _
    rw [List.mem_singleton] at ha
    subst ha
    exact le_of_eq rfl
  | cons c l ih =>
    intro b hp a ha hfa
    obtain ⟨hbcl, hcl⟩ := List.pairwise_cons.mp hp
    obtain ⟨hclx, hl⟩ := List.pairwise_cons.mp hcl
    rw [bestBy_cons] at hfa ⊢
    by_cases hf : f b < f c
    · rw [if_pos hf] at hfa ⊢
      have hpc : ((c :: l).Pairwise fun p q => g p < g q) := hcl
      rcases List.mem_cons.mp ha with h | h
      · subst h
        have hc : f c ≤ f (bestBy f c l) := le_bestBy f l c c (List.mem_cons_self c l)
        exact absurd hfa (ne_of_lt (hf.trans_le hc))
      · exact ih c hpc a h hfa
    · rw [if_neg hf] at hfa ⊢
      have hpb : ((b :: l).Pairwise fun p q => g p < g q) :=
        List.pairwise_cons.mpr ⟨fun x hx => hbcl x (List.mem_cons.mpr (Or.inr hx)), hl⟩
      rcases List.mem_cons.mp ha with h | h
      · subst h
        exact ih a hpb a (List.mem_cons_self a l) hfa
      · rcases List.mem_cons.mp h with h2 | h2
        · subst h2
          rcases bestBy_first f l b with he | ⟨_, hlt⟩
          · rw [he]
            exact le_of_lt (hbcl a (List.mem_cons_self a l))
          · have hcb : f a ≤ f b := le_of_not_lt hf
            exact absurd (hfa ▸ hcb) (not_le_of_lt hlt)
        · exact ih b hpb a (List.mem_cons.mpr (Or.inr h2)) hfa

/-- Claim C1: for every call to the box-selection step with a nonempty list of
candidate rectangles, if a valid previous region exists the selected box is
the candidate whose center has minimum Euclidean distance to the center of
the previous region, and if no valid previous region exists the selected box
is the candidate of largest area. -/
theorem setNearestBox_selects_nearest_or_largest (valid : Bool) (prevBox : Rect)
    (boxes : List Rect) (hne : boxes ≠ []) :
    ∃ sel, setNearestBox valid prevBox boxes = some sel ∧ sel ∈ boxes ∧
      (valid = true → ∀ b ∈ boxes,
        Real.sqrt ((distSq sel.center prevBox.center : ℚ) : ℝ) ≤
          Real.sqrt ((distSq b.center prevBox.center : ℚ) : ℝ)) ∧
      (valid = false → ∀ b ∈ boxes, b.area ≤ sel.area) := by
  match boxes, hne with
  | b :: bs, _ =>
    cases valid with
    | true =>
      refine ⟨bestBy (fun c => -distSq c.center prevBox.center) b bs, rfl,
        bestBy_mem _ _ _, fun _ bx hbx => ?_, fun hc => absurd hc (by simp)⟩
      have h := le_bestBy (fun c => -distSq c.center prevBox.center) bs b bx hbx
      simp only [neg_le_neg_iff] at h
      exact Real.sqrt_le_sqrt (by exact_mod_cast h)
    | false =>
      exact ⟨bestBy (fun c => c.area) b bs, rfl, bestBy_mem _ _ _,
        fun hc => absurd hc (by simp), fun _ bx hbx => le_bestBy (fun c => c.area) bs b bx hbx⟩

/-- Witness for claim C1, at two concrete candidates and a valid previous
region whose center is nearer to the first candidate. -/
theorem setNearestBox_selects_nearest_or_largest_witness :
    ([⟨0, 0, 2, 2⟩, ⟨10, 10, 2, 2⟩] : List Rect) ≠ [] ∧
    (∃ sel, setNearestBox true ⟨0, 0, 2, 2⟩ [⟨0, 0, 2, 2⟩, ⟨10, 10, 2, 2⟩] = some sel ∧
      sel ∈ ([⟨0, 0, 2, 2⟩, ⟨10, 10, 2, 2⟩] : List Rect) ∧
      (true = true → ∀ b ∈ ([⟨0, 0, 2, 2⟩, ⟨10, 10, 2, 2⟩] : List Rect),
        Real.sqrt ((distSq sel.center (Rect.center ⟨0, 0, 2, 2⟩) : ℚ) : ℝ) ≤
          Real.sqrt ((distSq b.center (Rect.center ⟨0, 0, 2, 2⟩) : ℚ) : ℝ)) ∧
      (true = false → ∀ b ∈ ([⟨0, 0, 2, 2⟩, ⟨10, 10, 2, 2⟩] : List Rect),
        b.area ≤ sel.area)) :=
  ⟨by decide, setNearestBox_selects_nearest_or_largest true ⟨0, 0, 2, 2⟩
    [⟨0, 0, 2, 2⟩, ⟨10, 10, 2, 2⟩] (by decide)⟩

theorem estimateHeartrate_of_filter_cons (minBpm maxBpm : ℚ) (spectrum : List (ℚ × ℚ))
    (b : ℚ × ℚ) (bs : List (ℚ × ℚ))
    (hf : spectrum.filter (inBand minBpm maxBpm) = b :: bs) :
    estimateHeartrate minBpm maxBpm spectrum =
      some (60 * (bestBy (fun bin => bin.2) b bs).1) := by
  unfold estimateHeartrate
  rw [hf]

/-- Claim C2: the heart-rate estimation step selects the frequency bin of
maximum power within the configured band, never returns a bpm outside
[minBpm, maxBpm], and excludes out-of-band bins from the peak search
entirely: the estimate over the full spectrum equals the estimate over the
spectrum restricted to the band. -/
theorem estimateHeartrate_in_band (minBpm maxBpm : ℚ) (spectrum : List (ℚ × ℚ))
    (bpm : ℚ) (h : estimateHeartrate minBpm maxBpm spectrum = some bpm) :
    (minBpm ≤ bpm ∧ bpm ≤ maxBpm) ∧
    (∃ bin ∈ spectrum, inBand minBpm maxBpm bin = true ∧ bpm = 60 * bin.1 ∧
      ∀ c ∈ spectrum, inBand minBpm maxBpm c = true → c.2 ≤ bin.2) ∧
    estimateHeartrate minBpm maxBpm spectrum =
      estimateHeartrate minBpm maxBpm (spectrum.filter (inBand minBpm maxBpm)) := by
  cases hf : spectrum.filter (inBand minBpm maxBpm) with
  | nil =>
    rw [estimateHeartrate, hf] at h
    cases h
  | cons b bs =>
    have he := estimateHeartrate_of_filter_cons minBpm maxBpm spectrum b bs hf
    rw [he] at h
    have hbpm : bpm = 60 * (bestBy (fun bin => bin.2) b bs).1 := (Option.some.inj h).symm
    have hselmem : bestBy (fun bin => bin.2) b bs ∈ spectrum.filter (inBand minBpm maxBpm) := by
      rw [hf]
      exact bestBy_mem _ _ _
    have hsel := List.mem_filter.mp hselmem
    have hband := hsel.2
    rw [inBand, Bool.and_eq_true, decide_eq_true_iff, decide_eq_true_iff] at hband
    refine ⟨⟨?_, ?_⟩, ⟨bestBy (fun bin => bin.2) b bs, hsel.1, hsel.2, hbpm, ?_⟩, ?_⟩
    · rw [hbpm]
      exact hband.1
    · rw [hbpm]
      exact hband.2
    · intro c hc hcb
      have hcf : c ∈ spectrum.filter (inBand minBpm maxBpm) := List.mem_filter.mpr ⟨hc, hcb⟩
      rw [hf] at hcf
      exact le_bestBy (fun bin => bin.2) bs b c hcf
    · have hfb : (b :: bs).filter (inBand minBpm maxBpm) = b :: bs := by
        rw [← hf]
        exact List.filter_eq_self.mpr fun a ha => List.of_mem_filter ha
      rw [he, estimateHeartrate_of_filter_cons minBpm maxBpm (b :: bs) b bs hfb]

/-- Witness for claim C2: a three-bin spectrum with one out-of-band bin; the
in-band peak is the 2 Hz bin, reported as 120 bpm. -/
theorem estimateHeartrate_in_band_witness :
    ((42 : ℚ) ≤ 120 ∧ (120 : ℚ) ≤ 240) ∧
    (∃ bin ∈ ([(1, 5), (2, 7), (10, 100)] : List (ℚ × ℚ)), inBand 42 240 bin = true ∧
      (120 : ℚ) = 60 * bin.1 ∧
      ∀ c ∈ ([(1, 5), (2, 7), (10, 100)] : List (ℚ × ℚ)),
        inBand 42 240 c = true → c.2 ≤ bin.2) ∧
    estimateHeartrate 42 240 [(1, 5), (2, 7), (10, 100)] =
      estimateHeartrate 42 240
        (([(1, 5), (2, 7), (10, 100)] : List (ℚ × ℚ)).filter (inBand 42 240)) :=
  estimateHeartrate_in_band 42 240 [(1, 5), (2, 7), (10, 100)] 120
    (by norm_num [estimateHeartrate, inBand, bestBy, List.filter])

/-- Claim C8: with the spectrum bins listed in increasing frequency order,
whenever an in-band bin attains the maximal in-band power, the returned bpm
is at most the bpm of that bin; in particular with two equal-power maximal
bins the estimator returns the lower of the two frequencies. -/
theorem estimateHeartrate_tie_lower (minBpm maxBpm : ℚ) (spectrum : List (ℚ × ℚ))
    (bpm : ℚ) (hsorted : spectrum.Pairwise fun p q => p.1 < q.1)
    (h : estimateHeartrate minBpm maxBpm spectrum = some bpm) :
    ∀ b ∈ spectrum, inBand minBpm maxBpm b = true →
      (∀ c ∈ spectrum, inBand minBpm maxBpm c = true → c.2 ≤ b.2) →
      bpm ≤ 60 * b.1 := by
  intro b hb hband hmax
  cases hf : spectrum.filter (inBand minBpm maxBpm) with
  | nil =>
    rw [estimateHeartrate, hf] at h
    cases h
  | cons fb fbs =>
    have he := estimateHeartrate_of_filter_cons minBpm maxBpm spectrum fb fbs hf
    rw [he] at h
    have hbpm : bpm = 60 * (bestBy (fun bin => bin.2) fb fbs).1 := (Option.some.inj h).symm
    have hp : ((fb :: fbs).Pairwise fun p q => p.1 < q.1) := by
      rw [← hf]
      exact hsorted.filter _
    have hbf : b ∈ fb :: fbs := by
      rw [← hf]
      exact List.mem_filter.mpr ⟨hb, hband⟩
    have hselmem : bestBy (fun bin => bin.2) fb fbs ∈ spectrum.filter (inBand minBpm maxBpm) := by
      rw [hf]
      exact bestBy_mem _ _ _
    have hsel := List.mem_filter.mp hselmem
    have heq : b.2 = (bestBy (fun bin => bin.2) fb fbs).2 :=
      le_antisymm (le_bestBy (fun bin => bin.2) fbs fb b hbf) (hmax _ hsel.1 hsel.2)
    have hfreq := bestBy_tiebreak (fun bin => bin.2) (fun bin => bin.1) fbs fb hp b hbf heq
    rw [hbpm]
    have h60 : (0 : ℚ) < 60 := by norm_num
    exact (mul_le_mul_left h60).mpr hfreq

/-- Witness for claim C8: three in-band bins in increasing frequency order,
with the maximal power 7 attained at both 1 Hz and 2 Hz; the estimator
returns 60 bpm, and the theorem applied at the 2 Hz bin bounds it by 120. -/
theorem estimateHeartrate_tie_lower_witness :
    (([(1, 7), (2, 7), (3, 1)] : List (ℚ × ℚ)).Pairwise fun p q => p.1 < q.1) ∧
    estimateHeartrate 42 240 [(1, 7), (2, 7), (3, 1)] = some 60 ∧
    (∀ b ∈ ([(1, 7), (2, 7), (3, 1)] : List (ℚ × ℚ)), inBand 42 240 b = true →
      (∀ c ∈ ([(1, 7), (2, 7), (3, 1)] : List (ℚ × ℚ)),
        inBand 42 240 c = true → c.2 ≤ b.2) →
      (60 : ℚ) ≤ 60 * b.1) :=
  ⟨by decide, by norm_num [estimateHeartrate, inBand, bestBy, List.filter],
    estimateHeartrate_tie_lower 42 240 [(1, 7), (2, 7), (3, 1)] 60 (by decide)
      (by norm_num [estimateHeartrate, inBand, bestBy, List.filter])⟩

theorem listMean_le_of_forall_le (w : ℚ) (ws : List ℚ) (M : ℚ)
    (hM : ∀ a ∈ w :: ws, a ≤ M) : listMean (w :: ws) ≤ M := by
  have hlen : (0 : ℚ) < ((w :: ws).length : ℚ) := by
    exact_mod_cast Nat.succ_pos ws.length
  rw [listMean, div_le_iff₀ hlen]
  have hsum : (w :: ws).sum ≤ (w :: ws).length • M := List.sum_le_card_nsmul _ _ hM
  rw [nsmul_eq_mul] at hsum
  linarith

theorem le_listMean_of_forall_le (w : ℚ) (ws : List ℚ) (m : ℚ)
    (hm : ∀ a ∈ w :: ws, m ≤ a) : m ≤ listMean (w :: ws) := by
  have hlen : (0 : ℚ) < ((w :: ws).length : ℚ) := by
    exact_mod_cast Nat.succ_pos ws.length
  rw [listMean, le_div_iff₀ hlen]
  have hsum : (w :: ws).length • m ≤ (w :: ws).sum := List.card_nsmul_le_sum _ _ hm
  rw [nsmul_eq_mul] at hsum
  linarith

/-- Claim C4: whenever the aggregator estimate is valid (its rolling window
holds at least the minimum number of raw estimates, so a report is emitted),
the reported statistics satisfy minBpm ≤ meanBpm ≤ maxBpm. -/
theorem aggregatorReport_min_le_mean_le_max (minCount : ℕ) (window : List ℚ)
    (m lo hi : ℚ) (h : aggregatorReport minCount window = some (m, lo, hi)) :
    lo ≤ m ∧ m ≤ hi := by
  cases window with
  | nil => simp [aggregatorReport] at h
  | cons w ws =>
    have h2 : (if minCount ≤ ws.length + 1 then
        some (listMean (w :: ws), bestBy (fun v => -v) w ws, bestBy id w ws)
          else none) = some (m, lo, hi) := h
    by_cases hc : minCount ≤ ws.length + 1
    · rw [if_pos hc] at h2
      obtain ⟨hm, hlo, hhi⟩ :
          listMean (w :: ws) = m ∧ bestBy (fun v => -v) w ws = lo ∧ bestBy id w ws = hi := by
        simpa using h2
      subst hm hlo hhi
      constructor
      · refine le_listMean_of_forall_le w ws _ fun a ha => ?_
        exact neg_le_neg_iff.mp (le_bestBy (fun v => -v) ws w a ha)
      · exact listMean_le_of_forall_le w ws _ fun a ha => le_bestBy id ws w a ha
    · rw [if_neg hc] at h2
      cases h2

/-- Witness for claim C4: a full rolling window of three raw estimates. -/
theorem aggregatorReport_min_le_mean_le_max_witness :
    (60 : ℚ) ≤ 80 ∧ (80 : ℚ) ≤ 100 :=
  aggregatorReport_min_le_mean_le_max 3 [60, 80, 100] 80 60 100
    (by norm_num [aggregatorReport, listMean, bestBy])

theorem sum_map_sub_const (xs : List ℚ) (c : ℚ) :
    (xs.map fun x => x - c).sum = xs.sum - xs.length * c := by
  induction xs with
  | nil => simp
  | cons a t ih =>
    simp only [List.map_cons, List.sum_cons, List.length_cons, ih]
    push_cast
    ring

theorem listMean_meanCenter (xs : List ℚ) (hne : xs ≠ []) :
    listMean (meanCenter xs) = 0 := by
  have hlen : ((xs.length : ℚ)) ≠ 0 := by
    exact_mod_cast (List.length_pos.mpr hne).ne'
  rw [meanCenter, listMean, sum_map_sub_const, List.length_map, listMean]
  rw [mul_div_cancel₀ _ hlen, sub_self, zero_div]

theorem sum_map_range (f : ℕ → ℚ) (n : ℕ) :
    ((List.range n).map f).sum = ∑ i ∈ Finset.range n, f i := by
  induction n with
  | zero => simp
  | succ n ih => simp [List.range_succ, Finset.sum_range_succ, ih]

theorem sum_getD (xs : List ℚ) : ∑ i ∈ Finset.range xs.length, xs.getD i 0 = xs.sum := by
  induction xs with
  | nil => simp
  | cons a t ih =>
    rw [List.length_cons, Finset.sum_range_succ']
    simp only [List.getD_cons_succ, List.getD_cons_zero, ih, List.sum_cons]
    exact add_comm _ _

theorem sum_shift_mod (g : ℕ → ℚ) (N : ℕ) (c : ℕ) :
    ∑ n ∈ Finset.range N, g ((n + c) % N) = ∑ n ∈ Finset.range N, g (n % N) := by
  induction c with
  | zero => simp
  | succ c ih =>
    have hre : ∑ n ∈ Finset.range N, g ((n + (c + 1)) % N) =
        ∑ n ∈ Finset.range N, g ((n + 1 + c) % N) :=
      Finset.sum_congr rfl fun n _ => by
        rw [show n + (c + 1) = n + 1 + c from by omega]
    have h1 : ∑ n ∈ Finset.range (N + 1), g ((n + c) % N) =
        (∑ n ∈ Finset.range N, g ((n + 1 + c) % N)) + g ((0 + c) % N) :=
      Finset.sum_range_succ' (fun n => g ((n + c) % N)) N
    have h2 : ∑ n ∈ Finset.range (N + 1), g ((n + c) % N) =
        (∑ n ∈ Finset.range N, g ((n + c) % N)) + g ((N + c) % N) :=
      Finset.sum_range_succ (fun n => g ((n + c) % N)) N
    have h3 : g ((N + c) % N) = g ((0 + c) % N) := by
      rw [Nat.add_mod_left, Nat.zero_add]
    rw [hre]
    have h4 : ∑ n ∈ Finset.range N, g ((n + 1 + c) % N) =
        ∑ n ∈ Finset.range N, g ((n + c) % N) := by
      have := h1.symm.trans h2
      rw [h3] at this
      linarith
    rw [h4, ih]

theorem sum_circConv (kernel xs : List ℚ) :
    (circConv kernel xs).sum = kernel.sum * xs.sum := by
  rw [circConv, sum_map_range]
  rw [Finset.sum_congr rfl fun n _ =>
    sum_map_range (fun j => kernel.getD j 0 * xs.getD (circIndex n j xs.length) 0)
      kernel.length]
  rw [Finset.sum_comm]
  have step2 : ∀ j, ∑ n ∈ Finset.range xs.length,
      kernel.getD j 0 * xs.getD (circIndex n j xs.length) 0 =
      kernel.getD j 0 * xs.sum := by
    intro j
    rw [← Finset.mul_sum]
    congr 1
    simp only [circIndex]
    calc ∑ n ∈ Finset.range xs.length,
          xs.getD ((n + (xs.length - j % xs.length)) % xs.length) 0 =
        ∑ n ∈ Finset.range xs.length, xs.getD (n % xs.length) 0 :=
          sum_shift_mod (fun i => xs.getD i 0) xs.length (xs.length - j % xs.length)
      _ = ∑ n ∈ Finset.range xs.length, xs.getD n 0 :=
          Finset.sum_congr rfl fun n hn => by
            rw [Nat.mod_eq_of_lt (Finset.mem_range.mp hn)]
      _ = xs.sum := sum_getD xs
  rw [Finset.sum_congr rfl fun j _ => step2 j, ← Finset.sum_mul]
  rw [sum_getD kernel]

/-- Claim C3: both selectable filter pipelines produce zero-mean output over
the segment: detrend plus mean-center for every nonempty input, and detrend
plus band-pass for every input whenever the band-pass kernel has zero DC gain
(its coefficients sum to zero), which is the defining property of a band-pass
filter whose stopband contains 0 Hz. -/
theorem filters_zero_mean (w : ℕ) (kernel : List ℚ) (xs : List ℚ)
    (hne : xs ≠ []) (hker : kernel.sum = 0) :
    listMean (extractSignal_den_detr_mean w xs) = 0 ∧
    listMean (extractSignal_den_band w kernel xs) = 0 := by
  constructor
  · refine listMean_meanCenter _ ?_
    have hl : (detrend w xs).length = xs.length := by
      simp [detrend, movingAvg]
    intro hnil
    have hz : xs.length = 0 := by
      rw [← hl, hnil]
      rfl
    exact hne (List.length_eq_zero.mp hz)
  · rw [extractSignal_den_band, listMean, sum_circConv, hker, zero_mul, zero_div]

/-- Witness for claim C3: a three-sample segment and the simplest zero-sum
band-pass kernel. -/
theorem filters_zero_mean_witness :
    listMean (extractSignal_den_detr_mean 1 [1, 2, 4]) = 0 ∧
    listMean (extractSignal_den_band 1 [1, -1] [1, 2, 4]) = 0 :=
  filters_zero_mean 1 [1, -1] [1, 2, 4] (by decide) (by norm_num)

theorem interpAt_cons2 (t1 v1 t2 v2 : ℚ) (rest : List (ℚ × ℚ)) (q : ℚ) :
    interpAt ((t1, v1) :: (t2, v2) :: rest) q =
      if q ≤ t1 then v1
      else if q ≤ t2 then v1 + (v2 - v1) * (q - t1) / (t2 - t1)
      else interpAt ((t2, v2) :: rest) q := rfl

theorem interpAt_node : ∀ samples : List (ℚ × ℚ),
    (samples.Pairwise fun p q => p.1 < q.1) →
    ∀ p ∈ samples, interpAt samples p.1 = p.2 := by
  intro samples
  induction samples with
  | nil =>
    intro _ p hp
    cases hp
  | cons a rest ih =>
    intro hs p hp
    obtain ⟨t1, v1⟩ := a
    cases rest with
    | nil =>
      rw [List.mem_singleton] at hp
      subst hp
      rfl
    | cons b rest2 =>
      obtain ⟨t2, v2⟩ := b
      obtain ⟨h1, hs2⟩ := List.pairwise_cons.mp hs
      have bt : t1 < t2 := h1 (t2, v2) (List.mem_cons_self _ _)
      rcases List.mem_cons.mp hp with hpa | hpbc
      · subst hpa
        show interpAt ((t1, v1) :: (t2, v2) :: rest2) t1 = v1
        rw [interpAt_cons2, if_pos (le_refl t1)]
      · have hpt : t1 < p.1 := h1 p hpbc
        rcases List.mem_cons.mp hpbc with hpb | hpc
        · subst hpb
          show interpAt ((t1, v1) :: (t2, v2) :: rest2) t2 = v2
          rw [interpAt_cons2, if_neg (not_le_of_lt bt), if_pos (le_refl t2)]
          have hne : t2 - t1 ≠ 0 := sub_ne_zero.mpr (ne_of_gt bt)
          field_simp
        · have h2t : t2 < p.1 := (List.pairwise_cons.mp hs2).1 p hpc
          rw [interpAt_cons2, if_neg (not_le_of_lt hpt), if_neg (not_le_of_lt h2t)]
          exact ih hs2 p hpbc

/-- Claim C6: resampling in the signal buffer is idempotent: a signal whose
samples already lie on the uniform grid at the sampling frequency, resampled
by linear interpolation onto that same grid, yields the same sequence of
values exactly (rational arithmetic, so well within floating tolerance). -/
theorem resample_idempotent (samples : List (ℚ × ℚ)) (t0 fs : ℚ) (hfs : 0 < fs)
    (hgrid : samples.map Prod.fst = uniformGrid t0 fs samples.length) :
    resample samples (uniformGrid t0 fs samples.length) = samples.map Prod.snd := by
  have hpair : samples.Pairwise fun p q => p.1 < q.1 := by
    have hmono : (uniformGrid t0 fs samples.length).Pairwise (· < ·) := by
      rw [uniformGrid, List.pairwise_map]
      refine List.Pairwise.imp ?_ (List.pairwise_lt_range samples.length)
      intro a b hab
      have hq : (a : ℚ) < b := by exact_mod_cast hab
      gcongr
    rw [← hgrid] at hmono
    exact List.pairwise_map.mp hmono
  rw [← hgrid, resample, List.map_map]
  exact List.map_congr_left fun p hp => interpAt_node samples hpair p hp

/-- Witness for claim C6: three samples on the uniform grid at 2 Hz starting
at time 0. -/
theorem resample_idempotent_witness :
    (0 : ℚ) < 2 ∧
    ([((0 : ℚ), (1 : ℚ)), (1 / 2, 2), (1, 3)].map Prod.fst =
      uniformGrid 0 2 ([((0 : ℚ), (1 : ℚ)), (1 / 2, 2), (1, 3)].length)) ∧
    resample [((0 : ℚ), (1 : ℚ)), (1 / 2, 2), (1, 3)]
        (uniformGrid 0 2 ([((0 : ℚ), (1 : ℚ)), (1 / 2, 2), (1, 3)].length)) =
      [((0 : ℚ), (1 : ℚ)), (1 / 2, 2), (1, 3)].map Prod.snd :=
  ⟨by norm_num, by norm_num [uniformGrid, List.range_succ],
    resample_idempotent [((0 : ℚ), (1 : ℚ)), (1 / 2, 2), (1, 3)] 0 2 (by norm_num)
      (by norm_num [uniformGrid, List.range_succ])⟩

theorem estimationStep_preserves (spectrumOf : List ℚ → List (ℚ × ℚ)) (s : RPPGState)
    (time : ℚ) :
    (estimationStep spectrumOf s time).1.signal = s.signal ∧
    (estimationStep spectrumOf s time).1.valid = s.valid ∧
    (estimationStep spectrumOf s time).1.missCount = s.missCount ∧
    (estimationStep spectrumOf s time).1.jumps = s.jumps ∧
    (estimationStep spectrumOf s time).1.settings = s.settings := by
  unfold estimationStep
  split
  · split
    · split
      · exact ⟨rfl, rfl, rfl, rfl, rfl⟩
      · exact ⟨rfl, rfl, rfl, rfl, rfl⟩
    · exact ⟨rfl, rfl, rfl, rfl, rfl⟩
  · exact ⟨rfl, rfl, rfl, rfl, rfl⟩

theorem estimationStep_skip (spectrumOf : List ℚ → List (ℚ × ℚ)) (s : RPPGState)
    (time : ℚ) (h : ¬ minSegmentDuration ≤ bufferDuration s.signal) :
    (estimationStep spectrumOf s time).2 = none := by
  unfold estimationStep
  rw [if_neg fun hc => h hc.2.1]

theorem trackerUpdate_preserves (s : RPPGState) (time : ℚ) (cands : List Rect) :
    (trackerUpdate s time cands).signal = s.signal ∧
    (trackerUpdate s time cands).settings = s.settings ∧
    (trackerUpdate s time cands).lastSamplingTime = s.lastSamplingTime ∧
    (trackerUpdate s time cands).bpmWindow = s.bpmWindow := by
  unfold trackerUpdate
  cases setNearestBox s.valid s.box cands with
  | some sel => exact ⟨rfl, rfl, rfl, rfl⟩
  | none =>
    by_cases hc : s.valid = true ∧ lostThreshold ≤ s.missCount + 1
    · rw [if_pos hc]
      exact ⟨rfl, rfl, rfl, rfl⟩
    · rw [if_neg hc]
      exact ⟨rfl, rfl, rfl, rfl⟩

theorem trackerUpdate_empty (s : RPPGState) (t : ℚ) :
    trackerUpdate s t [] =
      if s.valid = true ∧ lostThreshold ≤ s.missCount + 1 then
        { s with valid := false, missCount := s.missCount + 1, jumps := t :: s.jumps }
      else { s with missCount := s.missCount + 1 } := rfl

theorem appendSample_preserves (s : RPPGState) (f : FrameObs) :
    (appendSample s f).settings = s.settings ∧
    (appendSample s f).valid = s.valid ∧
    (appendSample s f).missCount = s.missCount ∧
    (appendSample s f).jumps = s.jumps := by
  unfold appendSample
  by_cases hc : f.faceCandidates ≠ [] ∧ s.valid = true
  · rw [if_pos hc]
    cases f.sample with
    | some v => exact ⟨rfl, rfl, rfl, rfl⟩
    | none => exact ⟨rfl, rfl, rfl, rfl⟩
  · rw [if_neg hc]
    exact ⟨rfl, rfl, rfl, rfl⟩

theorem appendSample_of_nodetect (s : RPPGState) (f : FrameObs)
    (h : f.faceCandidates = [] ∨ f.sample = none) :
    (appendSample s f).signal = s.signal := by
  unfold appendSample
  rcases h with h | h
  · rw [if_neg fun hc => hc.1 h]
  · by_cases hc : f.faceCandidates ≠ [] ∧ s.valid = true
    · rw [if_pos hc, h]
    · rw [if_neg hc]

theorem processFrame_def (spectrumOf : List ℚ → List (ℚ × ℚ)) (s : RPPGState)
    (f : FrameObs) :
    processFrame spectrumOf s f =
      estimationStep spectrumOf (appendSample (trackerUpdate s f.time f.faceCandidates) f)
        f.time := rfl

/-- Claim C10: every call to processFrame leaves the configuration fields set
at load time (minFaceSize, rescanInterval, samplingFrequency, timeBase,
logMode, drawMode and the three cascade classifiers, all carried in the
settings field) unchanged; only the tracking and signal state may change. -/
theorem processFrame_preserves_settings (spectrumOf : List ℚ → List (ℚ × ℚ))
    (s : RPPGState) (f : FrameObs) :
    (processFrame spectrumOf s f).1.settings = s.settings := by
  rw [processFrame_def]
  rw [(estimationStep_preserves spectrumOf _ f.time).2.2.2.2]
  rw [(appendSample_preserves _ f).1]
  exact (trackerUpdate_preserves s f.time f.faceCandidates).2.1

/-- Claim C5: steady-state anomalies are absorbed, never raised: processFrame
is a total function whose result carries the new state and at most one
emitted estimate, so its type has no failure channel; a detection miss or a
mask gap leaves the signal buffer unchanged (no sample appended), and when
the buffered duration is insufficient the estimation step is skipped and no
estimate is emitted. -/
theorem processFrame_absorbs_anomalies (spectrumOf : List ℚ → List (ℚ × ℚ))
    (s : RPPGState) (f : FrameObs) :
    ((f.faceCandidates = [] ∨ f.sample = none) →
      (processFrame spectrumOf s f).1.signal = s.signal) ∧
    (bufferDuration (processFrame spectrumOf s f).1.signal < minSegmentDuration →
      (processFrame spectrumOf s f).2 = none) := by
  constructor
  · intro h
    rw [processFrame_def]
    rw [(estimationStep_preserves spectrumOf _ f.time).1]
    rw [appendSample_of_nodetect _ f h]
    exact (trackerUpdate_preserves s f.time f.faceCandidates).1
  · intro hd
    rw [processFrame_def] at hd ⊢
    rw [(estimationStep_preserves spectrumOf _ f.time).1] at hd
    exact estimationStep_skip spectrumOf _ f.time (not_le_of_lt hd)

/-- Witness for claim C5: a frame with no detection and no extracted scalar,
processed from the empty-buffer state. -/
theorem processFrame_absorbs_anomalies_witness :
    (processFrame spectrumNone state0 ⟨1, [], none⟩).1.signal = state0.signal ∧
    (processFrame spectrumNone state0 ⟨1, [], none⟩).2 = none := by
  obtain ⟨h1, h2⟩ := processFrame_absorbs_anomalies spectrumNone state0 ⟨1, [], none⟩
  have hsig := h1 (Or.inl rfl)
  refine ⟨hsig, h2 ?_⟩
  rw [hsig]
  norm_num [state0, bufferDuration, minSegmentDuration]

theorem processFrame_miss (spectrumOf : List ℚ → List (ℚ × ℚ)) (s : RPPGState)
    (t : ℚ) (o : Option ℚ) :
    (processFrame spectrumOf s ⟨t, [], o⟩).1.signal = s.signal ∧
    (processFrame spectrumOf s ⟨t, [], o⟩).1.missCount = s.missCount + 1 ∧
    (s.valid = true → ¬ lostThreshold ≤ s.missCount + 1 →
      (processFrame spectrumOf s ⟨t, [], o⟩).1.valid = true ∧
      (processFrame spectrumOf s ⟨t, [], o⟩).1.jumps = s.jumps) ∧
    (s.valid = true → lostThreshold ≤ s.missCount + 1 →
      (processFrame spectrumOf s ⟨t, [], o⟩).1.valid = false ∧
      (processFrame spectrumOf s ⟨t, [], o⟩).1.jumps = t :: s.jumps) := by
  have happ : appendSample (trackerUpdate s t []) ⟨t, [], o⟩ = trackerUpdate s t [] := by
    unfold appendSample
    rw [if_neg]
    intro hc
    exact hc.1 rfl
  have hkey : (processFrame spectrumOf s ⟨t, [], o⟩).1 =
      (estimationStep spectrumOf (trackerUpdate s t []) t).1 := by
    show (estimationStep spectrumOf (appendSample (trackerUpdate s t []) ⟨t, [], o⟩) t).1 =
      (estimationStep spectrumOf (trackerUpdate s t []) t).1
    rw [happ]
  obtain ⟨es, ev, em, ej, _⟩ := estimationStep_preserves spectrumOf (trackerUpdate s t []) t
  refine ⟨?_, ?_, ?_, ?_⟩
  · rw [hkey, es]
    exact (trackerUpdate_preserves s t []).1
  · rw [hkey, em, trackerUpdate_empty]
    by_cases hc : s.valid = true ∧ lostThreshold ≤ s.missCount + 1
    · rw [if_pos hc]
    · rw [if_neg hc]
  · intro hv hth
    have hc : ¬ (s.valid = true ∧ lostThreshold ≤ s.missCount + 1) := fun hc => hth hc.2
    constructor
    · rw [hkey, ev, trackerUpdate_empty, if_neg hc]
      exact hv
    · rw [hkey, ej, trackerUpdate_empty, if_neg hc]
  · intro hv hth
    have hc : s.valid = true ∧ lostThreshold ≤ s.missCount + 1 := ⟨hv, hth⟩
    constructor
    · rw [hkey, ev, trackerUpdate_empty, if_pos hc]
    · rw [hkey, ej, trackerUpdate_empty, if_pos hc]

/-- Claim C7: if the detector returns zero candidates for five consecutive
frames after a previously valid track, the validity flag becomes false, no
signal sample is appended during that span, and the transition to Lost
records one discontinuity marker carrying the time of the losing frame. -/
theorem five_misses_lose_track (spectrumOf : List ℚ → List (ℚ × ℚ)) (s : RPPGState)
    (t1 t2 t3 t4 t5 : ℚ) (o1 o2 o3 o4 o5 : Option ℚ) (final : RPPGState)
    (hv : s.valid = true) (hm : s.missCount = 0)
    (hfinal : final = List.foldl (fun st fr => (processFrame spectrumOf st fr).1) s
      [⟨t1, [], o1⟩, ⟨t2, [], o2⟩, ⟨t3, [], o3⟩, ⟨t4, [], o4⟩, ⟨t5, [], o5⟩]) :
    final.valid = false ∧ final.signal = s.signal ∧ final.jumps = t5 :: s.jumps := by
  subst hfinal
  simp only [List.foldl_cons, List.foldl_nil]
  obtain ⟨a1, b1, c1, _⟩ := processFrame_miss spectrumOf s t1 o1
  obtain ⟨hv1, hj1⟩ := c1 hv (by rw [hm]; decide)
  obtain ⟨a2, b2, c2, _⟩ :=
    processFrame_miss spectrumOf ((processFrame spectrumOf s ⟨t1, [], o1⟩).1) t2 o2
  obtain ⟨hv2, hj2⟩ := c2 hv1 (by rw [b1, hm]; decide)
  obtain ⟨a3, b3, c3, _⟩ :=
    processFrame_miss spectrumOf
      ((processFrame spectrumOf ((processFrame spectrumOf s ⟨t1, [], o1⟩).1)
        ⟨t2, [], o2⟩).1) t3 o3
  obtain ⟨hv3, hj3⟩ := c3 hv2 (by rw [b2, b1, hm]; decide)
  obtain ⟨a4, b4, c4, _⟩ :=
    processFrame_miss spectrumOf
      ((processFrame spectrumOf ((processFrame spectrumOf
        ((processFrame spectrumOf s ⟨t1, [], o1⟩).1) ⟨t2, [], o2⟩).1) ⟨t3, [], o3⟩).1) t4 o4
  obtain ⟨hv4, hj4⟩ := c4 hv3 (by rw [b3, b2, b1, hm]; decide)
  obtain ⟨a5, b5, _, d5⟩ :=
    processFrame_miss spectrumOf
      ((processFrame spectrumOf ((processFrame spectrumOf ((processFrame spectrumOf
        ((processFrame spectrumOf s ⟨t1, [], o1⟩).1) ⟨t2, [], o2⟩).1) ⟨t3, [], o3⟩).1)
          ⟨t4, [], o4⟩).1) t5 o5
  obtain ⟨hv5, hj5⟩ := d5 hv4 (by rw [b4, b3, b2, b1, hm]; decide)
  refine ⟨hv5, ?_, ?_⟩
  · rw [a5, a4, a3, a2, a1]
  · rw [hj5, hj4, hj3, hj2, hj1]

/-- Witness for claim C7: five empty-detection frames at times 1 to 5 from a
concrete valid-track state. -/
theorem five_misses_lose_track_witness :
    (List.foldl (fun st fr => (processFrame spectrumNone st fr).1) stateValid
      [⟨1, [], none⟩, ⟨2, [], none⟩, ⟨3, [], none⟩, ⟨4, [], none⟩,
        ⟨5, [], none⟩]).valid = false ∧
    (List.foldl (fun st fr => (processFrame spectrumNone st fr).1) stateValid
      [⟨1, [], none⟩, ⟨2, [], none⟩, ⟨3, [], none⟩, ⟨4, [], none⟩,
        ⟨5, [], none⟩]).signal = stateValid.signal ∧
    (List.foldl (fun st fr => (processFrame spectrumNone st fr).1) stateValid
      [⟨1, [], none⟩, ⟨2, [], none⟩, ⟨3, [], none⟩, ⟨4, [], none⟩,
        ⟨5, [], none⟩]).jumps = 5 :: stateValid.jumps :=
  five_misses_lose_track spectrumNone stateValid 1 2 3 4 5 none none none none none _
    rfl rfl rfl

/-- Counterexample to claim C9 as stated: with every classifier resource
missing, construction still succeeds (the result is not a failure) and
yields an object whose classifiers are not loaded, so the pipeline object
does exist in an uninitialized state. -/
theorem constructRPPGSimple_counterexample :
    constructRPPGSimple ⟨false, false, false⟩ ≠ none ∧
    constructRPPGSimple ⟨false, false, false⟩ = some { loaded := false } :=
  ⟨fun h => Option.noConfusion h, rfl⟩

/-- Claim C9 amended: a missing classifier resource is not surfaced at
construction time: the default constructor has an empty body, always succeeds
whatever the resource availability, and yields an object whose classifiers
are not loaded; classifier loading and any failure it may surface belong to
the separate load call that follows construction. -/
theorem constructRPPGSimple_always_succeeds (env : ResourceEnv) :
    constructRPPGSimple env = some { loaded := false } := rfl

end Heartbeat
